import Mathlib

/-!
Verification of the epubAnalyzer segmentation and analysis pipeline.

The definitions below are a shallow embedding of the Python functions in
`app.py` / `app2.py`.  External collaborators (BeautifulSoup, the EPUB
parser, the remote model endpoint) are abstracted:

* a parsed document fragment (`Soup`) records the projections the code
  queries — the text of the first `h1`/`h2`/`h3` element, the texts of
  elements with a title/chapter/head class, and the whole fragment's plain
  text (the result of `get_text()`);
* the EPUB reader is modelled as an `Except` value: either a list of
  document items together with the declared metadata, or a parse failure;
* the remote model call is a function argument returning `Except`.

Python strings are modelled as Lean `String`s (sequences of code points);
Python slicing, `strip`, `lower` and substring search are given data-level
definitions so that every function is executable.
-/

namespace EpubAnalyzer

/-- Python `s[:n]` (slice of the first `n` code points). -/
def strTake (s : String) (n : Nat) : String := ⟨s.data.take n⟩

/-- Python `s.lower()` (per-character lowercasing). -/
def strToLower (s : String) : String := ⟨s.data.map Char.toLower⟩

/-- Python `s.strip()` (drop whitespace from both ends). -/
def strTrim (s : String) : String :=
  ⟨(((s.data.dropWhile Char.isWhitespace).reverse).dropWhile Char.isWhitespace).reverse⟩

/-- Substring occurrence test on code-point lists: does `pat` occur
contiguously inside `hay`?  This models `re.search` with a plain
alternation pattern. -/
def containsSub (pat : List Char) : List Char → Bool
  | [] => decide (pat = [])
  | c :: rest => pat.isPrefixOf (c :: rest) || containsSub pat rest

/-- The alternatives of the compiled pattern
`re.compile(r'(cover|copyright|dedication|ack)', re.IGNORECASE)`. -/
def junk_words : List String := ["cover", "copyright", "dedication", "ack"]

/-- `junk_pattern.search(item.get_name())` from `parse_epub_to_pages`:
case-insensitive substring search of the four alternatives. -/
def junk_pattern_search (name : String) : Bool :=
  junk_words.any (fun p => containsSub p.data (strToLower name).data)

/-- Abstraction of a `BeautifulSoup` document fragment: the projections the
source code (and the spec's title rules) query. -/
structure Soup where
  firstHeading : Option String
  classTitleTexts : List String
  text : String
deriving DecidableEq

/-- `ebooklib` item types (`ITEM_DOCUMENT`, `ITEM_IMAGE`, other). -/
inductive ItemType
  | document
  | image
  | other
deriving DecidableEq

/-- An EPUB document item: name, type, and its parsed content. -/
structure Item where
  name : String
  type : ItemType
  soup : Soup
deriving DecidableEq

/-- A virtual page as built by `parse_epub_to_pages`. -/
structure Page where
  chapter : String
  content : String
  id : Nat
deriving DecidableEq

/-- A chapter-index entry (`chapter_map` element). -/
structure ChapterEntry where
  title : String
  start_page : Nat
deriving DecidableEq

/-- `clean_html`: `BeautifulSoup(...).get_text()`, i.e. the fragment's plain
text (markup stripping itself is the collaborator's job). -/
def clean_html (soup : Soup) : String := soup.text

/-- `extract_title` from `app.py`/`app2.py`: the text of the first
`h1`/`h2`/`h3` element, stripped and truncated to 60 characters, and the
literal `"Section"` otherwise.  The `filename` argument is accepted and
ignored, exactly as in the source. -/
def extract_title (soup : Soup) (filename : String) : String :=
  match soup.firstHeading with
  | some h => strTake (strTrim h) 60
  | none => "Section"

/-- `calculate_reading_time`: the Python float arithmetic is modelled
exactly over `ℚ`; `int(...)`, `//` and `%` on non-negative values are
floors. -/
def calculate_reading_time (word_count : Nat) (wpm : Int) : String :=
  let rate : Int := if wpm ≤ 0 then 250 else wpm
  let minutes : ℚ := (word_count : ℚ) / (rate : ℚ)
  if minutes < 60 then
    toString ⌊minutes⌋ ++ " min"
  else
    let hours : Int := ⌊minutes / 60⌋
    let mins : Int := ⌊minutes - 60 * (hours : ℚ)⌋
    toString hours ++ "h " ++ toString mins ++ "m"

/-- The fixed chunk size of the segmenter. -/
def chunk_size : Nat := 1500

/-- `raw_text[i : i + chunk_size]` for `i in range(0, len(raw_text),
chunk_size)`, on code-point lists. -/
def chunkList (l : List Char) : List (List Char) :=
  if h : l = [] then []
  else l.take chunk_size :: chunkList (l.drop chunk_size)
termination_by l.length
decreasing_by
  simp only [List.length_drop, chunk_size]
  have hpos : 0 < l.length := List.length_pos.mpr h
  omega

/-- The chunks of a string, as strings. -/
def chunkText (s : String) : List String := (chunkList s.data).map String.mk

/-- The pages appended for one item's chunk list, starting from a page list
of length `n`: each chunk is appended with `id = len(all_pages) + 1`. -/
def pagesFor (chapter_title : String) : Nat → List String → List Page
  | _, [] => []
  | n, c :: cs =>
    { chapter := chapter_title, content := c, id := n + 1 } :: pagesFor chapter_title (n + 1) cs

/-- The body of the `for item in book.get_items()` loop of
`parse_epub_to_pages`, acting on the accumulated `(all_pages, chapter_map)`
state. -/
def processItem (st : List Page × List ChapterEntry) (item : Item) :
    List Page × List ChapterEntry :=
  if item.type = ItemType.document then
    if junk_pattern_search item.name then st
    else
      let raw_text := clean_html item.soup
      if raw_text.length < 200 then st
      else
        let chapter_title := extract_title item.soup item.name
        let chapter_map :=
          if st.1 = [] ∨ (st.1.getLast?).map Page.chapter ≠ some chapter_title then
            st.2 ++ [{ title := chapter_title, start_page := st.1.length + 1 }]
          else st.2
        (st.1 ++ pagesFor chapter_title st.1.length (chunkText raw_text), chapter_map)
  else st

/-- The segmentation loop of `parse_epub_to_pages` over the ordered document
items. -/
def parse_epub_to_pages (items : List Item) : List Page × List ChapterEntry :=
  items.foldl processItem ([], [])

/-- `parse_epub_to_pages` including its `try/except` wrapper: the EPUB
reader either produces the ordered items plus metadata, or raises — the
`except` branch returns empty pages, empty chapter map and `"Unknown"`
metadata. -/
def parse_epub (source : Except String (List Item × String × String)) :
    List Page × List ChapterEntry × String × String :=
  match source with
  | Except.ok (items, meta_title, meta_author) =>
    let r := parse_epub_to_pages items
    (r.1, r.2, meta_title, meta_author)
  | Except.error _ => ([], [], "Unknown", "Unknown")

/-- The items the segmenter actually emits pages for: document items that
pass the junk filter and whose cleaned text has length at least 200. -/
def itemKept (it : Item) : Prop :=
  it.type = ItemType.document ∧ junk_pattern_search it.name = false ∧
    200 ≤ (clean_html it.soup).length

instance : DecidablePred itemKept := fun it => by
  unfold itemKept; infer_instance

/-- The sublist of surviving items, in order. -/
def keptItems (items : List Item) : List Item :=
  items.filter (fun it => decide (itemKept it))

/-- `update_slider_from_dropdowns` from `app.py`, as a pure function of the
session state it reads (`chapter_map`, `len(pages)`, the two dropdown
titles, the current slider value).  `titles.index` raising `ValueError`
(either title absent) leaves the slider unchanged. -/
def update_slider_from_dropdowns (chapter_map : List ChapterEntry) (pages_count : Nat)
    (start_title end_title : String) (page_slider : Nat × Nat) : Nat × Nat :=
  let titles := chapter_map.map ChapterEntry.title
  match titles.indexOf? start_title, titles.indexOf? end_title with
  | some start_idx, some end_idx =>
    let end_idx' := if end_idx < start_idx then start_idx else end_idx
    let start_page := ((chapter_map.get? start_idx).map ChapterEntry.start_page).getD 0
    let end_page :=
      if end_idx' < chapter_map.length - 1 then
        ((chapter_map.get? (end_idx' + 1)).map ChapterEntry.start_page).getD 0 - 1
      else pages_count
    let end_page' := if end_page < start_page then start_page else end_page
    (start_page, end_page')
  | _, _ => page_slider

/-- `update_slider_from_dropdowns` from `app2.py`: identical except that the
final `if end_page < start_page` clamp is absent. -/
def update_slider_from_dropdowns_v2 (chapter_map : List ChapterEntry) (pages_count : Nat)
    (start_title end_title : String) (page_slider : Nat × Nat) : Nat × Nat :=
  let titles := chapter_map.map ChapterEntry.title
  match titles.indexOf? start_title, titles.indexOf? end_title with
  | some start_idx, some end_idx =>
    let end_idx' := if end_idx < start_idx then start_idx else end_idx
    let start_page := ((chapter_map.get? start_idx).map ChapterEntry.start_page).getD 0
    let end_page :=
      if end_idx' < chapter_map.length - 1 then
        ((chapter_map.get? (end_idx' + 1)).map ChapterEntry.start_page).getD 0 - 1
      else pages_count
    (start_page, end_page)
  | _, _ => page_slider

/-- `defaultdict(list)` grouping of the selected pages by chapter title:
keys appear in first-occurrence order (Python dicts preserve insertion
order), each key's list collects that chapter's page contents in page
order. -/
def groupByChapter (selected_pages : List Page) : List (String × List String) :=
  selected_pages.foldl
    (fun acc p =>
      if p.chapter ∈ acc.map Prod.fst then
        acc.map (fun kv => if kv.1 = p.chapter then (kv.1, kv.2 ++ [p.content]) else kv)
      else acc ++ [(p.chapter, [p.content])])
    []

/-- One iteration of the `summarize_segmented` loop: join the chapter's
contents, call the model on the capped text, and render either the result
section or the inline error marker. -/
def summarizeSection (api : String → String → Except String String)
    (chap_title : String) (content_list : List String) : String :=
  let chap_text := String.intercalate "\n" content_list
  match api chap_title (strTake chap_text 30000) with
  | Except.ok res => "### " ++ chap_title ++ "\n" ++ res ++ "\n\n"
  | Except.error e => "### " ++ chap_title ++ "\n[Error: " ++ e ++ "]\n\n"

/-- `summarize_segmented` from `app.py`: the external model call is the
`api` argument (title and capped chapter text to response or failure). -/
def summarize_segmented (api : String → String → Except String String)
    (selected_pages : List Page) : String :=
  (groupByChapter selected_pages).foldl
    (fun full_summary tc => full_summary ++ summarizeSection api tc.1 tc.2) ""

/-- One iteration of the `xray_segmented` loop. -/
def xraySection (api : String → String → Except String String)
    (chap_title : String) (content_list : List String) : String :=
  let chap_text := String.intercalate "\n" content_list
  match api chap_title (strTake chap_text 30000) with
  | Except.ok res => "## 🔎 " ++ chap_title ++ "\n" ++ res ++ "\n\n---\n\n"
  | Except.error e => "### " ++ chap_title ++ "\n[Error: " ++ e ++ "]\n\n"

/-- `xray_segmented` from `app.py`. -/
def xray_segmented (api : String → String → Except String String)
    (selected_pages : List Page) : String :=
  (groupByChapter selected_pages).foldl
    (fun full_xray tc => full_xray ++ xraySection api tc.1 tc.2) ""

/-- Collapse of a title sequence as the chapter map performs it: a title is
recorded exactly when it differs from the chapter title of the most
recently appended page (`prev`). -/
def dedupFrom (prev : Option String) : List String → List String
  | [] => []
  | t :: rest =>
    if prev = some t then dedupFrom (some t) rest
    else t :: dedupFrom (some t) rest

/-- The distinct values of a list in first-occurrence order. -/
def firstOccurrences (l : List String) : List String :=
  l.foldl (fun acc t => if t ∈ acc then acc else acc ++ [t]) []

/-- Split a code-point list at every occurrence of `c` (Python
`str.split('\n')`-like, keeping empty pieces). -/
def splitOnChar (c : Char) : List Char → List (List Char)
  | [] => [[]]
  | x :: rest =>
    match splitOnChar c rest with
    | [] => if x = c then [[], []] else [[x]]
    | h :: t => if x = c then [] :: h :: t else (x :: h) :: t

/-- Modelled from the spec: rule 2 of the Title Extractor (§4.2) — the text
of the first element whose class matches title/chapter/head, provided the
trimmed text length is strictly between 3 and 60.  `Soup.classTitleTexts`
holds the texts of the class-matching elements in document order. -/
def specTitleRule2 (soup : Soup) : Option String :=
  match soup.classTitleTexts.head? with
  | some t =>
    if 3 < (strTrim t).length ∧ (strTrim t).length < 60 then some (strTrim t) else none
  | none => none

/-- Modelled from the spec: rule 3 of the Title Extractor (§4.2) — the
first non-blank line of the plain text, when under 50 characters. -/
def specTitleRule3 (text : String) : Option String :=
  match ((splitOnChar '\n' text.data).map String.mk).find? (fun ln => strTrim ln ≠ "") with
  | some ln => if (strTrim ln).length < 50 then some (strTrim ln) else none
  | none => none

/-- Modelled from the spec: rule 4 of the Title Extractor (§4.2) — a
literal marker combined with the fallback identifier's last path segment. -/
def specTitleRule4 (filename : String) : String :=
  "Section: " ++ (((splitOnChar '/' filename.data).map String.mk).getLast?.getD filename)

/-- Modelled from the spec: the full four-rule priority chain of the Title
Extractor (§4.2), for comparison with the source's `extract_title`. -/
def extract_title_spec (soup : Soup) (filename : String) : String :=
  match soup.firstHeading with
  | some h => strTake (strTrim h) 60
  | none =>
    match specTitleRule2 soup with
    | some t => t
    | none =>
      match specTitleRule3 soup.text with
      | some t => t
      | none => specTitleRule4 filename

/-! ### String and chunking lemmas -/

theorem mk_append (a b : List Char) : String.mk a ++ String.mk b = String.mk (a ++ b) := rfl

theorem mk_data (s : String) : String.mk s.data = s := rfl

theorem strLength_mk (l : List Char) : (String.mk l).length = l.length := rfl

theorem str_append_assoc (a b c : String) : a ++ b ++ c = a ++ (b ++ c) := by
  cases a; cases b; cases c
  simp only [mk_append, List.append_assoc]

theorem foldl_append_mk (L : List (List Char)) (a : List Char) :
    List.foldl (fun r s => r ++ s) (String.mk a) (L.map String.mk) =
      String.mk (a ++ L.flatten) := by
  induction L generalizing a with
  | nil => simp
  | cons h t ih =>
    simp only [List.map_cons, List.foldl_cons, mk_append, List.flatten_cons, ih,
      List.append_assoc]

theorem join_map_mk (L : List (List Char)) :
    String.join (L.map String.mk) = String.mk L.flatten := by
  have := foldl_append_mk L []
  simpa [String.join] using this

theorem map_data_map_mk (L : List String) : (L.map String.data).map String.mk = L := by
  induction L with
  | nil => rfl
  | cons h t ih => simp only [List.map_cons, mk_data, ih]

theorem join_eq (L : List String) : String.join L = String.mk (L.map String.data).flatten := by
  conv_lhs => rw [← map_data_map_mk L]
  rw [join_map_mk]

theorem chunkList_flatten_aux :
    ∀ (n : Nat) (l : List Char), l.length ≤ n → (chunkList l).flatten = l := by
  intro n
  induction n with
  | zero =>
    intro l hl
    have : l = [] := List.length_eq_zero.mp (Nat.le_zero.mp hl)
    subst this
    rw [chunkList]
    simp
  | succ n ih =>
    intro l hl
    rw [chunkList]
    by_cases h : l = []
    · simp [h]
    · simp only [h, dite_false, List.flatten_cons]
      rw [ih (l.drop chunk_size)]
      · exact List.take_append_drop _ l
      · have h1 : 0 < l.length := List.length_pos.mpr h
        simp only [List.length_drop, chunk_size]
        omega

theorem chunkList_flatten (l : List Char) : (chunkList l).flatten = l :=
  chunkList_flatten_aux l.length l le_rfl

theorem chunkText_join (s : String) : String.join (chunkText s) = s := by
  unfold chunkText
  rw [join_map_mk, chunkList_flatten, mk_data]

theorem chunkList_ne_nil (l : List Char) (h : l ≠ []) : chunkList l ≠ [] := by
  rw [chunkList]
  simp [h]

theorem chunkText_ne_nil (s : String) (h : 200 ≤ s.length) : chunkText s ≠ [] := by
  unfold chunkText
  have hd : s.data ≠ [] := by
    intro hc
    have : s.length = 0 := by
      show s.data.length = 0
      simp [hc]
    omega
  simp [chunkList_ne_nil s.data hd]

theorem join_append (L₁ L₂ : List String) :
    String.join (L₁ ++ L₂) = String.join L₁ ++ String.join L₂ := by
  simp only [join_eq, List.map_append, List.flatten_append, mk_append]

theorem join_cons (s : String) (L : List String) :
    String.join (s :: L) = s ++ String.join L := by
  have := join_append [s] L
  simpa [String.join] using this

/-! ### Lemmas about `pagesFor` -/

theorem pagesFor_map_content (t : String) :
    ∀ (cs : List String) (n : Nat), (pagesFor t n cs).map Page.content = cs := by
  intro cs
  induction cs with
  | nil => intro n; rfl
  | cons c cs ih => intro n; simp [pagesFor, ih]

theorem pagesFor_map_pair (t : String) :
    ∀ (cs : List String) (n : Nat),
      (pagesFor t n cs).map (fun p => (p.chapter, p.content)) = cs.map (fun c => (t, c)) := by
  intro cs
  induction cs with
  | nil => intro n; rfl
  | cons c cs ih => intro n; simp [pagesFor, ih]

theorem pagesFor_length (t : String) :
    ∀ (cs : List String) (n : Nat), (pagesFor t n cs).length = cs.length := by
  intro cs
  induction cs with
  | nil => intro n; rfl
  | cons c cs ih => intro n; simp [pagesFor, ih]

theorem pagesFor_map_id (t : String) :
    ∀ (cs : List String) (n : Nat),
      (pagesFor t n cs).map Page.id = List.range' (n + 1) cs.length := by
  intro cs
  induction cs with
  | nil => intro n; rfl
  | cons c cs ih =>
    intro n
    simp [pagesFor, ih, List.range'_succ]

theorem pagesFor_getLast?_chapter (t : String) :
    ∀ (cs : List String) (n : Nat), cs ≠ [] →
      ((pagesFor t n cs).getLast?).map Page.chapter = some t := by
  intro cs
  induction cs with
  | nil => intro n h; exact absurd rfl h
  | cons c cs ih =>
    intro n _
    by_cases hcs : cs = []
    · subst hcs; rfl
    · have h1 : pagesFor t n (c :: cs) =
          { chapter := t, content := c, id := n + 1 } :: pagesFor t (n + 1) cs := rfl
      rw [h1]
      have h2 : pagesFor t (n + 1) cs ≠ [] := by
        intro hc
        have := pagesFor_length t cs (n + 1)
        rw [hc] at this
        exact hcs (List.length_eq_zero.mp this.symm)
      obtain ⟨p, ps, hps⟩ := List.exists_cons_of_ne_nil h2
      rw [hps, List.getLast?_cons_cons, ← hps]
      exact ih (n + 1) hcs

/-! ### Step lemmas for the segmentation fold -/

theorem processItem_not_kept (st : List Page × List ChapterEntry) (it : Item)
    (h : ¬ itemKept it) : processItem st it = st := by
  unfold processItem itemKept at *
  by_cases h1 : it.type = ItemType.document
  · by_cases h2 : junk_pattern_search it.name
    · simp [h1, h2]
    · by_cases h3 : (clean_html it.soup).length < 200
      · simp [h1, h2, h3]
      · exact absurd ⟨h1, Bool.eq_false_iff.mpr h2, Nat.not_lt.mp h3⟩ h
  · simp [h1]

theorem processItem_kept (pages : List Page) (cmap : List ChapterEntry) (it : Item)
    (h : itemKept it) :
    processItem (pages, cmap) it =
      (pages ++ pagesFor (extract_title it.soup it.name) pages.length
          (chunkText (clean_html it.soup)),
       if pages = [] ∨ (pages.getLast?).map Page.chapter ≠ some (extract_title it.soup it.name)
       then cmap ++ [{ title := extract_title it.soup it.name, start_page := pages.length + 1 }]
       else cmap) := by
  obtain ⟨h1, h2, h3⟩ := h
  unfold processItem
  simp [h1, h2, Nat.not_lt.mpr h3]

theorem keptItems_cons (it : Item) (l : List Item) :
    keptItems (it :: l) = if itemKept it then it :: keptItems l else keptItems l := by
  unfold keptItems
  rw [List.filter_cons]
  by_cases h : itemKept it <;> simp [h]

/-! ### Trace lemmas for the segmentation fold -/

theorem cond_iff (pages : List Page) (t : String) :
    (pages = [] ∨ (pages.getLast?).map Page.chapter ≠ some t) ↔
      (pages.getLast?).map Page.chapter ≠ some t := by
  constructor
  · rintro (h | h)
    · subst h; simp
    · exact h
  · exact Or.inr

theorem append_pagesFor_getLast? (pages : List Page) (t : String) (n : Nat)
    (cs : List String) (hne : cs ≠ []) :
    ((pages ++ pagesFor t n cs).getLast?).map Page.chapter = some t := by
  have h1 := pagesFor_getLast?_chapter t cs n hne
  obtain ⟨p, hp, hpt⟩ := Option.map_eq_some'.mp h1
  rw [List.getLast?_append, hp]
  simpa using hpt

theorem foldl_pair_trace :
    ∀ (l : List Item) (pages : List Page) (cmap : List ChapterEntry),
      ((List.foldl processItem (pages, cmap) l).1).map (fun p => (p.chapter, p.content)) =
        pages.map (fun p => (p.chapter, p.content)) ++
          (keptItems l).flatMap (fun it =>
            (chunkText (clean_html it.soup)).map
              (fun c => (extract_title it.soup it.name, c))) := by
  intro l
  induction l with
  | nil => intro pages cmap; simp [keptItems]
  | cons it l ih =>
    intro pages cmap
    rw [List.foldl_cons]
    by_cases hk : itemKept it
    · rw [processItem_kept pages cmap it hk, keptItems_cons, if_pos hk, ih]
      simp [pagesFor_map_pair, List.append_assoc]
    · rw [processItem_not_kept _ _ hk, keptItems_cons, if_neg hk, ih]

theorem foldl_content_trace :
    ∀ (l : List Item) (pages : List Page) (cmap : List ChapterEntry),
      ((List.foldl processItem (pages, cmap) l).1).map Page.content =
        pages.map Page.content ++
          (keptItems l).flatMap (fun it => chunkText (clean_html it.soup)) := by
  intro l
  induction l with
  | nil => intro pages cmap; simp [keptItems]
  | cons it l ih =>
    intro pages cmap
    rw [List.foldl_cons]
    by_cases hk : itemKept it
    · rw [processItem_kept pages cmap it hk, keptItems_cons, if_pos hk, ih]
      simp [pagesFor_map_content, List.append_assoc]
    · rw [processItem_not_kept _ _ hk, keptItems_cons, if_neg hk, ih]

theorem foldl_ids :
    ∀ (l : List Item) (pages : List Page) (cmap : List ChapterEntry),
      pages.map Page.id = List.range' 1 pages.length →
      ((List.foldl processItem (pages, cmap) l).1).map Page.id =
        List.range' 1 (List.foldl processItem (pages, cmap) l).1.length := by
  intro l
  induction l with
  | nil => intro pages cmap h; simpa using h
  | cons it l ih =>
    intro pages cmap h
    rw [List.foldl_cons]
    by_cases hk : itemKept it
    · rw [processItem_kept pages cmap it hk]
      apply ih
      rw [List.map_append, pagesFor_map_id, h, List.length_append, pagesFor_length]
      have h1 := List.range'_append 1 pages.length
        (chunkText (clean_html it.soup)).length 1
      have h2 : 1 + 1 * pages.length = pages.length + 1 := by omega
      rw [h2] at h1
      rw [h1, Nat.add_comm]
    · rw [processItem_not_kept _ _ hk]
      exact ih pages cmap h

theorem foldl_cmap_titles :
    ∀ (l : List Item) (pages : List Page) (cmap : List ChapterEntry),
      ((List.foldl processItem (pages, cmap) l).2).map ChapterEntry.title =
        cmap.map ChapterEntry.title ++
          dedupFrom ((pages.getLast?).map Page.chapter)
            ((keptItems l).map (fun it => extract_title it.soup it.name)) := by
  intro l
  induction l with
  | nil => intro pages cmap; simp [keptItems, dedupFrom]
  | cons it l ih =>
    intro pages cmap
    rw [List.foldl_cons]
    by_cases hk : itemKept it
    · rw [processItem_kept pages cmap it hk, keptItems_cons, if_pos hk]
      have hne : chunkText (clean_html it.soup) ≠ [] := chunkText_ne_nil _ hk.2.2
      have hlast := append_pagesFor_getLast? pages (extract_title it.soup it.name)
        pages.length (chunkText (clean_html it.soup)) hne
      by_cases hcond : (pages.getLast?).map Page.chapter = some (extract_title it.soup it.name)
      · rw [if_neg (by rw [cond_iff]; exact not_not_intro hcond), ih, hlast]
        simp [dedupFrom, hcond]
      · rw [if_pos (Or.inr hcond), ih, hlast]
        simp [dedupFrom, hcond, List.append_assoc]
    · rw [processItem_not_kept _ _ hk, keptItems_cons, if_neg hk, ih]

theorem foldl_cmap_mono :
    ∀ (l : List Item) (pages : List Page) (cmap : List ChapterEntry),
      (∀ e ∈ cmap, e.start_page ≤ pages.length) →
      List.Chain' (fun a b => a.start_page < b.start_page) cmap →
      List.Chain' (fun a b => a.start_page < b.start_page)
          (List.foldl processItem (pages, cmap) l).2 ∧
        ∀ e ∈ (List.foldl processItem (pages, cmap) l).2,
          e.start_page ≤ (List.foldl processItem (pages, cmap) l).1.length := by
  intro l
  induction l with
  | nil => intro pages cmap hb hc; exact ⟨hc, hb⟩
  | cons it l ih =>
    intro pages cmap hb hc
    rw [List.foldl_cons]
    by_cases hk : itemKept it
    · rw [processItem_kept pages cmap it hk]
      have hne : chunkText (clean_html it.soup) ≠ [] := chunkText_ne_nil _ hk.2.2
      have hcs : 0 < (chunkText (clean_html it.soup)).length := List.length_pos.mpr hne
      have hlen : (pages ++ pagesFor (extract_title it.soup it.name) pages.length
          (chunkText (clean_html it.soup))).length =
          pages.length + (chunkText (clean_html it.soup)).length := by
        rw [List.length_append, pagesFor_length]
      apply ih
      · intro e he
        by_cases hcond : pages = [] ∨
            (pages.getLast?).map Page.chapter ≠ some (extract_title it.soup it.name)
        · rw [if_pos hcond] at he
          rcases List.mem_append.mp he with h1 | h1
          · have := hb e h1
            omega
          · rw [List.mem_singleton.mp h1]
            simpa [hlen] using hcs
        · rw [if_neg hcond] at he
          have := hb e he
          omega
      · by_cases hcond : pages = [] ∨
            (pages.getLast?).map Page.chapter ≠ some (extract_title it.soup it.name)
        · rw [if_pos hcond]
          rw [List.chain'_append]
          refine ⟨hc, List.chain'_singleton _, ?_⟩
          intro x hx y hy
          have hxm : x ∈ cmap := List.mem_of_mem_getLast? hx
          have hyx : y = ChapterEntry.mk (extract_title it.soup it.name) (pages.length + 1) := by
            symm
            simpa using hy
          have := hb x hxm
          rw [hyx]
          simpa using Nat.lt_succ_of_le this
        · rw [if_neg hcond]
          exact hc
    · rw [processItem_not_kept _ _ hk]
      exact ih pages cmap hb hc

/-! ### Claims about the Segmenter -/

/-- Claim C1: for every sequence of document items, the pages emitted by the
segmenter are, in order, exactly the chunks of the cleaned text of the
surviving items (junk-filtered out, or cleaned length < 200, items
excluded), each tagged with its item's chapter title; the chunks of any
string concatenate back to that string, so each surviving item's full
cleaned text is reproduced, split into consecutive chunks, with nothing
dropped or truncated, and the total content equals the concatenation of the
surviving items' cleaned texts. -/
theorem C1_run_reconstruction (items : List Item) :
    ((parse_epub_to_pages items).1.map (fun p => (p.chapter, p.content)) =
      (keptItems items).flatMap (fun it =>
        (chunkText (clean_html it.soup)).map (fun c => (extract_title it.soup it.name, c)))) ∧
    (String.join ((parse_epub_to_pages items).1.map Page.content) =
      String.join ((keptItems items).map (fun it => clean_html it.soup))) ∧
    ∀ s : String, String.join (chunkText s) = s := by
  refine ⟨?_, ?_, chunkText_join⟩
  · have h := foldl_pair_trace items [] []
    simpa [parse_epub_to_pages] using h
  · have h1 := foldl_content_trace items [] []
    have h2 : String.join ((keptItems items).flatMap
          (fun it => chunkText (clean_html it.soup))) =
        String.join ((keptItems items).map (fun it => clean_html it.soup)) := by
      induction keptItems items with
      | nil => rfl
      | cons it k ih =>
        rw [List.flatMap_cons, join_append, chunkText_join, List.map_cons, join_cons, ih]
    rw [parse_epub_to_pages] at *
    rw [h1]
    simpa using h2

/-- Claim C2: for every sequence of document items, the emitted pages carry
identifiers exactly `1..N` in emission order (`N` the number of emitted
pages): the identifier list is precisely `List.range' 1 N`, so there are no
gaps, no repeats, and each page's identifier equals its (1-based) position
in the final page list. -/
theorem C2_page_ids (items : List Item) :
    (parse_epub_to_pages items).1.map Page.id =
      List.range' 1 (parse_epub_to_pages items).1.length := by
  have h := foldl_ids items [] [] (by simp)
  simpa [parse_epub_to_pages] using h

/-- Claim C3: for every sequence of document items, the chapter index has
strictly increasing start-pages, and its titles are exactly the surviving
items' detected titles collapsed by `dedupFrom none`: a new entry appears
exactly when the page list is empty (`prev = none`) or the detected title
differs from the chapter title of the most recently appended page; as the
closed computation shows, an identical title recurring after an intervening
different title starts a new entry rather than merging into the earlier
one. -/
theorem C3_chapter_index (items : List Item) :
    List.Chain' (fun a b => a.start_page < b.start_page) (parse_epub_to_pages items).2 ∧
    ((parse_epub_to_pages items).2.map ChapterEntry.title =
      dedupFrom none ((keptItems items).map (fun it => extract_title it.soup it.name))) ∧
    dedupFrom none ["A", "A", "B", "A"] = ["A", "B", "A"] := by
  refine ⟨?_, ?_, by decide⟩
  · exact (foldl_cmap_mono items [] [] (by simp) List.chain'_nil).1
  · have h := foldl_cmap_titles items [] []
    simpa [parse_epub_to_pages] using h

/-- Claim C7: when the source cannot be opened or parsed as a valid EPUB
archive (the reader collaborator fails), the segmenter swallows the
exception and returns an empty page list, an empty chapter index and
default `"Unknown"` metadata. -/
theorem C7_parse_failure (e : String) :
    parse_epub (Except.error e) = ([], [], "Unknown", "Unknown") := rfl

/-! ### Index lookup lemmas for the Range Resolver -/

theorem findIdx?_some_spec :
    ∀ (l : List String) (p : String → Bool) (k i : Nat),
      List.findIdx? p l k = some i →
      k ≤ i ∧ i - k < l.length ∧
        (∃ x, l.get? (i - k) = some x ∧ p x = true) ∧
        ∀ j, j < i - k → ∀ x, l.get? j = some x → p x = false := by
  intro l
  induction l with
  | nil =>
    intro p k i h
    rw [List.findIdx?_nil] at h
    exact absurd h (by simp)
  | cons b l ih =>
    intro p k i h
    rw [List.findIdx?_cons] at h
    by_cases hb : p b = true
    · rw [if_pos hb] at h
      have hk : k = i := by
        have := Option.some.inj h
        omega
      subst hk
      refine ⟨le_rfl, by simp, ⟨b, by simp, hb⟩, ?_⟩
      intro j hj
      omega
    · rw [if_neg hb] at h
      obtain ⟨h1, h2, ⟨x, hx1, hx2⟩, h4⟩ := ih p (k + 1) i h
      refine ⟨by omega, ?_, ⟨x, ?_, hx2⟩, ?_⟩
      · simp only [List.length_cons]
        omega
      · have hik : i - k = (i - (k + 1)) + 1 := by omega
        rw [hik]
        simpa using hx1
      · intro j hj x' hx'
        cases j with
        | zero =>
          have hbx : b = x' := by simpa using hx'
          subst hbx
          exact Bool.eq_false_iff.mpr hb
        | succ j =>
          apply h4 j (by omega) x'
          simpa using hx'

theorem indexOf?_spec (l : List String) (a : String) (i : Nat)
    (h : l.indexOf? a = some i) :
    i < l.length ∧ l.get? i = some a ∧ ∀ j, j < i → l.get? j ≠ some a := by
  have h' : List.findIdx? (fun x => x == a) l 0 = some i := h
  obtain ⟨-, h2, ⟨x, hx1, hx2⟩, h4⟩ := findIdx?_some_spec l (fun x => x == a) 0 i h'
  simp only [Nat.sub_zero] at h2 hx1 h4
  have hxa : x = a := by simpa using hx2
  subst hxa
  refine ⟨h2, hx1, ?_⟩
  intro j hj hc
  have := h4 j hj x hc
  simp at this

theorem find?_eq_get?_of_first :
    ∀ (l : List ChapterEntry) (s : String) (i : Nat),
      i < l.length →
      (l.map ChapterEntry.title).get? i = some s →
      (∀ j, j < i → (l.map ChapterEntry.title).get? j ≠ some s) →
      l.find? (fun c => c.title == s) = l.get? i := by
  intro l
  induction l with
  | nil =>
    intro s i h _hg _hm
    simp at h
  | cons c cs ih =>
    intro s i hlen hget hmin
    cases i with
    | zero =>
      have hcs : c.title = s := by simpa using hget
      rw [List.find?_cons_of_pos _ (by simpa using hcs)]
      rfl
    | succ k =>
      have hcs : c.title ≠ s := by
        have := hmin 0 (Nat.succ_pos k)
        simpa using this
      rw [List.find?_cons_of_neg _ (by simpa using hcs)]
      have h1 : (cs.map ChapterEntry.title).get? k = some s := by simpa using hget
      have h2 : ∀ j, j < k → (cs.map ChapterEntry.title).get? j ≠ some s := by
        intro j hj
        have := hmin (j + 1) (by omega)
        simpa using this
      have h3 : k < cs.length := by
        simp only [List.length_cons] at hlen
        omega
      rw [ih s k h3 h1 h2]
      rfl

theorem update_slider_spec (cmap : List ChapterEntry) (total : Nat)
    (s_t e_t : String) (cur : Nat × Nat) (i j : Nat)
    (hi : (cmap.map ChapterEntry.title).indexOf? s_t = some i)
    (hj : (cmap.map ChapterEntry.title).indexOf? e_t = some j) :
    update_slider_from_dropdowns cmap total s_t e_t cur =
      (((cmap.get? i).map ChapterEntry.start_page).getD 0,
       if (if (if j < i then i else j) < cmap.length - 1 then
             ((cmap.get? ((if j < i then i else j) + 1)).map ChapterEntry.start_page).getD 0 - 1
           else total) < ((cmap.get? i).map ChapterEntry.start_page).getD 0 then
         ((cmap.get? i).map ChapterEntry.start_page).getD 0
       else
         if (if j < i then i else j) < cmap.length - 1 then
           ((cmap.get? ((if j < i then i else j) + 1)).map ChapterEntry.start_page).getD 0 - 1
         else total) := by
  simp only [update_slider_from_dropdowns, hi, hj]

theorem update_slider_v2_spec (cmap : List ChapterEntry) (total : Nat)
    (s_t e_t : String) (cur : Nat × Nat) (i j : Nat)
    (hi : (cmap.map ChapterEntry.title).indexOf? s_t = some i)
    (hj : (cmap.map ChapterEntry.title).indexOf? e_t = some j) :
    update_slider_from_dropdowns_v2 cmap total s_t e_t cur =
      (((cmap.get? i).map ChapterEntry.start_page).getD 0,
       if (if j < i then i else j) < cmap.length - 1 then
         ((cmap.get? ((if j < i then i else j) + 1)).map ChapterEntry.start_page).getD 0 - 1
       else total) := by
  simp only [update_slider_from_dropdowns_v2, hi, hj]

/-- Claim C6: for every chapter index with strictly increasing start-pages
all within the book (at most the total page count), and every title pair
found in it, the resolver returns the start-chapter's start-page as range
start; the range end is the total page count when the (clamped) end-chapter
is the last entry and the following entry's start-page minus one otherwise;
an end-chapter preceding the start-chapter is clamped to the start-chapter,
and the resulting range is always non-empty (start ≤ end); the `app2.py`
variant agrees.  The concrete scenario: chapters at start-pages
`[1, 6, 10]`, 15 pages, pair ("Chapter 1", "Chapter 1") resolves to
`(1, 5)`. -/
theorem C6_range_resolver :
    (∀ (cmap : List ChapterEntry) (total : Nat) (s_t e_t : String) (cur : Nat × Nat)
        (i j : Nat),
      List.Pairwise (fun a b => a.start_page < b.start_page) cmap →
      (∀ e ∈ cmap, e.start_page ≤ total) →
      (cmap.map ChapterEntry.title).indexOf? s_t = some i →
      (cmap.map ChapterEntry.title).indexOf? e_t = some j →
      (update_slider_from_dropdowns cmap total s_t e_t cur).1 =
          ((cmap.get? i).map ChapterEntry.start_page).getD 0 ∧
        (update_slider_from_dropdowns cmap total s_t e_t cur).2 =
          (if (if j < i then i else j) < cmap.length - 1 then
            ((cmap.get? ((if j < i then i else j) + 1)).map ChapterEntry.start_page).getD 0 - 1
          else total) ∧
        (update_slider_from_dropdowns cmap total s_t e_t cur).1 ≤
          (update_slider_from_dropdowns cmap total s_t e_t cur).2 ∧
        update_slider_from_dropdowns_v2 cmap total s_t e_t cur =
          update_slider_from_dropdowns cmap total s_t e_t cur) ∧
    update_slider_from_dropdowns
        [⟨"Chapter 1", 1⟩, ⟨"Chapter 2", 6⟩, ⟨"Chapter 3", 10⟩] 15
        "Chapter 1" "Chapter 1" (0, 0) = (1, 5) := by
  constructor
  · intro cmap total s_t e_t cur i j hpw hbound hi hj
    obtain ⟨hilen, higet, -⟩ := indexOf?_spec _ _ _ hi
    obtain ⟨hjlen, -, -⟩ := indexOf?_spec _ _ _ hj
    rw [List.length_map] at hilen hjlen
    have hgi : cmap.get? i = some cmap[i] := by
      rw [List.get?_eq_getElem?]
      exact List.getElem?_eq_getElem hilen
    have hmain := update_slider_spec cmap total s_t e_t cur i j hi hj
    have hmain2 := update_slider_v2_spec cmap total s_t e_t cur i j hi hj
    obtain ⟨jj, hjj⟩ : ∃ jj, (if j < i then i else j) = jj := ⟨_, rfl⟩
    rw [hjj] at hmain hmain2
    have hijj : i ≤ jj := by
      rw [← hjj]
      split <;> omega
    have hjjlen : jj < cmap.length := by
      rw [← hjj]
      split <;> omega
    have hsp : ((cmap.get? i).map ChapterEntry.start_page).getD 0 = cmap[i].start_page := by
      rw [hgi]
      rfl
    rw [hsp] at hmain
    have key : cmap[i].start_page ≤
        (if jj < cmap.length - 1 then
          ((cmap.get? (jj + 1)).map ChapterEntry.start_page).getD 0 - 1
        else total) := by
      split
      · next hlt =>
        have hj1 : jj + 1 < cmap.length := by omega
        have hgj : cmap.get? (jj + 1) = some cmap[jj + 1] := by
          rw [List.get?_eq_getElem?]
          exact List.getElem?_eq_getElem hj1
        rw [hgj]
        have hmono : cmap[i].start_page < cmap[jj + 1].start_page :=
          List.pairwise_iff_getElem.mp hpw i (jj + 1) hilen hj1 (by omega)
        simp only [Option.map_some', Option.getD_some]
        omega
      · next hge =>
        exact hbound cmap[i] (List.get?_mem hgi)
    rw [if_neg (Nat.not_lt.mpr key)] at hmain
    rw [hjj, hsp]
    refine ⟨?_, ?_, ?_, ?_⟩
    · rw [hmain]
    · rw [hmain]
    · rw [hmain]
      exact key
    · rw [hmain2, hmain, hsp]
  · decide

/-- Claim C10: chapter titles are not unique; the resolver looks both
dropdown titles up with `list.index`, which returns the first (lowest)
index, so both the start and the end title always resolve to the earliest
chapter-index entry bearing that title — the range start is the start-page
of the first entry whose title matches, no earlier entry matches either
title, and (concretely) with entries A@1, B@4, A@7 over 9 pages the pair
(A, A) resolves to (1, 3): the later A-run at page 7 can never be selected
through the chapter view. -/
theorem C10_earliest_title :
    (∀ (cmap : List ChapterEntry) (total : Nat) (s_t e_t : String) (cur : Nat × Nat)
        (i j : Nat),
      (cmap.map ChapterEntry.title).indexOf? s_t = some i →
      (cmap.map ChapterEntry.title).indexOf? e_t = some j →
      (∀ k, k < i → (cmap.map ChapterEntry.title).get? k ≠ some s_t) ∧
        (∀ k, k < j → (cmap.map ChapterEntry.title).get? k ≠ some e_t) ∧
        (update_slider_from_dropdowns cmap total s_t e_t cur).1 =
          ((cmap.find? (fun c => c.title == s_t)).map ChapterEntry.start_page).getD 0) ∧
    update_slider_from_dropdowns [⟨"A", 1⟩, ⟨"B", 4⟩, ⟨"A", 7⟩] 9 "A" "A" (0, 0) = (1, 3) := by
  constructor
  · intro cmap total s_t e_t cur i j hi hj
    obtain ⟨hilen, higet, himin⟩ := indexOf?_spec _ _ _ hi
    obtain ⟨-, -, hjmin⟩ := indexOf?_spec _ _ _ hj
    rw [List.length_map] at hilen
    refine ⟨himin, hjmin, ?_⟩
    have hfind := find?_eq_get?_of_first cmap s_t i hilen higet himin
    rw [update_slider_spec cmap total s_t e_t cur i j hi hj, hfind]
  · decide

/-- Witness for C6: the hypotheses hold at the spec's concrete scenario and
the resolved range is non-empty. -/
theorem C6_range_resolver_witness :
    (update_slider_from_dropdowns
        [⟨"Chapter 1", 1⟩, ⟨"Chapter 2", 6⟩, ⟨"Chapter 3", 10⟩] 15
        "Chapter 1" "Chapter 1" (0, 0)).1 ≤
      (update_slider_from_dropdowns
        [⟨"Chapter 1", 1⟩, ⟨"Chapter 2", 6⟩, ⟨"Chapter 3", 10⟩] 15
        "Chapter 1" "Chapter 1" (0, 0)).2 :=
  (C6_range_resolver.1
    [⟨"Chapter 1", 1⟩, ⟨"Chapter 2", 6⟩, ⟨"Chapter 3", 10⟩] 15
    "Chapter 1" "Chapter 1" (0, 0) 0 0
    (by decide) (by decide) (by decide) (by decide)).2.2.1

/-- Witness for C10: at the duplicate-title index A@1, B@4, A@7, the
resolver's range start is the first A entry's start-page. -/
theorem C10_earliest_title_witness :
    (update_slider_from_dropdowns [⟨"A", 1⟩, ⟨"B", 4⟩, ⟨"A", 7⟩] 9 "A" "A" (0, 0)).1 =
      ((([⟨"A", 1⟩, ⟨"B", 4⟩, ⟨"A", 7⟩] : List ChapterEntry).find?
          (fun c => c.title == "A")).map ChapterEntry.start_page).getD 0 :=
  (C10_earliest_title.1 [⟨"A", 1⟩, ⟨"B", 4⟩, ⟨"A", 7⟩] 9 "A" "A" (0, 0) 0 0
    (by decide) (by decide)).2.2

/-! ### Lemmas for the Analysis Orchestrator -/

theorem str_append_empty (a : String) : a ++ "" = a := by
  cases a
  exact congrArg String.mk (List.append_nil _)

theorem foldl_accum {α : Type} (f : α → String) :
    ∀ (l : List α) (a : String),
      l.foldl (fun acc x => acc ++ f x) a = a ++ String.join (l.map f) := by
  intro l
  induction l with
  | nil =>
    intro a
    simp only [List.foldl_nil, List.map_nil]
    exact (str_append_empty a).symm
  | cons x xs ih =>
    intro a
    rw [List.foldl_cons, ih, List.map_cons, join_cons, str_append_assoc]

theorem groupBy_fst_aux :
    ∀ (pages : List Page) (acc : List (String × List String)),
      ((pages.foldl (fun acc p =>
          if p.chapter ∈ acc.map Prod.fst then
            acc.map (fun kv => if kv.1 = p.chapter then (kv.1, kv.2 ++ [p.content]) else kv)
          else acc ++ [(p.chapter, [p.content])]) acc).map Prod.fst) =
        (pages.map Page.chapter).foldl
          (fun acc t => if t ∈ acc then acc else acc ++ [t]) (acc.map Prod.fst) := by
  intro pages
  induction pages with
  | nil => intro acc; rfl
  | cons p ps ih =>
    intro acc
    rw [List.map_cons, List.foldl_cons, List.foldl_cons, ih]
    congr 1
    by_cases hmem : p.chapter ∈ acc.map Prod.fst
    · rw [if_pos hmem, if_pos hmem, List.map_map]
      apply List.map_congr_left
      intro kv _
      by_cases hkv : kv.1 = p.chapter <;> simp [hkv]
    · rw [if_neg hmem, if_neg hmem, List.map_append]
      rfl

theorem groupByChapter_fst (pages : List Page) :
    (groupByChapter pages).map Prod.fst = firstOccurrences (pages.map Page.chapter) := by
  have h := groupBy_fst_aux pages []
  simpa [groupByChapter, firstOccurrences] using h

/-- Claim C8: the combined report is the concatenation, chapter by chapter,
of independent per-chapter sections; the chapter order is the
first-occurrence order of the selection; a failing external call for one
chapter produces exactly that chapter's inline error marker and leaves
every other chapter's section untouched — a failure never aborts the batch
or removes other chapters' results.  This holds for both `summarize` and
`xray` orchestrators. -/
theorem C8_analysis_isolation (api : String → String → Except String String)
    (pages : List Page) :
    (summarize_segmented api pages =
      String.join ((groupByChapter pages).map (fun tc => summarizeSection api tc.1 tc.2))) ∧
    (xray_segmented api pages =
      String.join ((groupByChapter pages).map (fun tc => xraySection api tc.1 tc.2))) ∧
    ((groupByChapter pages).map Prod.fst = firstOccurrences (pages.map Page.chapter)) ∧
    (∀ t cs e, api t (strTake (String.intercalate "\n" cs) 30000) = Except.error e →
      summarizeSection api t cs = "### " ++ t ++ "\n[Error: " ++ e ++ "]\n\n" ∧
      xraySection api t cs = "### " ++ t ++ "\n[Error: " ++ e ++ "]\n\n") := by
  refine ⟨?_, ?_, groupByChapter_fst pages, ?_⟩
  · unfold summarize_segmented
    rw [foldl_accum]
    rfl
  · unfold xray_segmented
    rw [foldl_accum]
    rfl
  · intro t cs e h
    constructor
    · simp only [summarizeSection, h]
    · simp only [xraySection, h]

/-- Witness for C8: a collaborator that always fails yields exactly the
inline error marker as the chapter's section. -/
theorem C8_analysis_isolation_witness :
    summarizeSection (fun _ _ => Except.error "boom") "B" ["text"] =
      "### B\n[Error: boom]\n\n" :=
  ((C8_analysis_isolation (fun _ _ => Except.error "boom") []).2.2.2 "B" ["text"] "boom" rfl).1

/-! ### Reading-time arithmetic -/

theorem floor_nat_div (a b : Nat) :
    ⌊(a : ℚ) / (b : ℚ)⌋ = ((a / b : Nat) : ℤ) := by
  have h0 : (0 : ℚ) ≤ (a : ℚ) / (b : ℚ) := by positivity
  have h2 : ((⌊(a : ℚ) / (b : ℚ)⌋₊ : ℕ) : ℤ) = ⌊(a : ℚ) / (b : ℚ)⌋ := by
    rw [← Int.floor_toNat]
    exact Int.toNat_of_nonneg (Int.floor_nonneg.mpr h0)
  rw [← h2, Nat.floor_div_nat, Nat.floor_natCast]

/-- Claim C9: the reading-time estimator clamps a non-positive
words-per-minute rate to 250; for a positive rate it renders
`"<minutes> min"` when the truncated minute count is under 60 and
`"<hours>h <minutes>m"` otherwise, with both components computed by integer
truncation (never rounding); `estimate 0 wpm = "0 min"` for every rate and
`estimate 25000 250 = "1h 40m"`. -/
theorem C9_reading_time :
    (∀ (wc : Nat) (wpm : Int), wpm ≤ 0 →
      calculate_reading_time wc wpm = calculate_reading_time wc 250) ∧
    (∀ (wc w : Nat), 0 < w →
      calculate_reading_time wc (w : Int) =
        if wc < 60 * w then toString (wc / w) ++ " min"
        else toString (wc / (60 * w)) ++ "h " ++ toString ((wc / w) % 60) ++ "m") ∧
    (∀ wpm : Int, calculate_reading_time 0 wpm = "0 min") ∧
    calculate_reading_time 25000 250 = "1h 40m" := by
  have hmain : ∀ (wc w : Nat), 0 < w →
      calculate_reading_time wc (w : Int) =
        if wc < 60 * w then toString (wc / w) ++ " min"
        else toString (wc / (60 * w)) ++ "h " ++ toString ((wc / w) % 60) ++ "m" := by
    intro wc w hw
    have hw' : ¬((w : ℤ) ≤ 0) := by omega
    simp only [calculate_reading_time, if_neg hw', Int.cast_natCast]
    have hwQ : (0 : ℚ) < (w : ℚ) := by exact_mod_cast hw
    have hcond : ((wc : ℚ) / (w : ℚ) < 60) ↔ (wc < 60 * w) := by
      rw [div_lt_iff₀ hwQ]
      exact_mod_cast Iff.rfl
    by_cases hc : wc < 60 * w
    · rw [if_pos (hcond.mpr hc), if_pos hc, floor_nat_div]
      rfl
    · rw [if_neg (fun hlt => hc (hcond.mp hlt)), if_neg hc]
      have h60 : ((wc : ℚ) / (w : ℚ)) / (60 : ℚ) = (wc : ℚ) / ((60 * w : ℕ) : ℚ) := by
        rw [div_div, mul_comm]
        norm_cast
      rw [h60, floor_nat_div]
      have hsub : ∀ z : ℤ, (60 : ℚ) * ((z : ℤ) : ℚ) = ((60 * z : ℤ) : ℚ) := by
        intro z
        push_cast
        ring
      rw [hsub (((wc / (60 * w) : ℕ) : ℤ)), Int.floor_sub_int, floor_nat_div]
      have harith : ((wc / w : ℕ) : ℤ) - 60 * ((wc / (60 * w) : ℕ) : ℤ) =
          (((wc / w) % 60 : ℕ) : ℤ) := by
        have hd : wc / (60 * w) = (wc / w) / 60 := by
          rw [Nat.div_div_eq_div_mul, Nat.mul_comm]
        rw [hd]
        omega
      rw [harith]
      rfl
  refine ⟨?_, hmain, ?_, ?_⟩
  · intro wc wpm h
    simp only [calculate_reading_time, if_pos h]
    norm_num
  · intro wpm
    simp only [calculate_reading_time, Nat.cast_zero, zero_div]
    rw [if_pos (by norm_num : (0 : ℚ) < 60), Int.floor_zero]
    rfl
  · have h := hmain 25000 250 (by norm_num)
    rw [show ((250 : ℕ) : ℤ) = (250 : ℤ) from rfl] at h
    rw [h]
    decide

/-- Witness for C9: a negative rate is clamped (same result as rate 250),
and the integer-truncation characterization evaluates `estimate 25000 250`
to `"1h 40m"`. -/
theorem C9_reading_time_witness :
    calculate_reading_time 100 (-7) = calculate_reading_time 100 250 ∧
    calculate_reading_time 25000 ((250 : ℕ) : Int) =
      (if 25000 < 60 * 250 then toString (25000 / 250) ++ " min"
       else toString (25000 / (60 * 250)) ++ "h " ++ toString ((25000 / 250) % 60) ++ "m") :=
  ⟨C9_reading_time.1 100 (-7) (by decide), C9_reading_time.2.1 25000 250 (by decide)⟩

/-! ### Substring-search correctness and the Junk Filter / Title Extractor -/

theorem isPrefixOf_eq_iff : ∀ (p l : List Char), p.isPrefixOf l = true ↔ ∃ t, p ++ t = l := by
  intro p
  induction p with
  | nil => intro l; simp [List.isPrefixOf]
  | cons a as ih =>
    intro l
    cases l with
    | nil => simp [List.isPrefixOf]
    | cons b bs =>
      simp only [List.isPrefixOf, Bool.and_eq_true, beq_iff_eq, ih, List.cons_append,
        List.cons.injEq]
      constructor
      · rintro ⟨hab, t, ht⟩
        exact ⟨t, hab, ht⟩
      · rintro ⟨t, hab, ht⟩
        exact ⟨hab, t, ht⟩

theorem containsSub_iff : ∀ (hay pat : List Char),
    containsSub pat hay = true ↔ ∃ pre suf, hay = pre ++ pat ++ suf := by
  intro hay
  induction hay with
  | nil =>
    intro pat
    simp only [containsSub, decide_eq_true_eq]
    constructor
    · rintro rfl
      exact ⟨[], [], rfl⟩
    · rintro ⟨pre, suf, h⟩
      rcases List.append_eq_nil.mp h.symm with ⟨h1, -⟩
      rcases List.append_eq_nil.mp h1 with ⟨-, h2⟩
      exact h2
  | cons c rest ih =>
    intro pat
    simp only [containsSub, Bool.or_eq_true, isPrefixOf_eq_iff, ih]
    constructor
    · rintro (⟨t, ht⟩ | ⟨pre, suf, h⟩)
      · exact ⟨[], t, by simpa using ht.symm⟩
      · exact ⟨c :: pre, suf, by simp [h]⟩
    · rintro ⟨pre, suf, h⟩
      cases pre with
      | nil => exact Or.inl ⟨suf, by simpa using h.symm⟩
      | cons c' pre' =>
        right
        simp only [List.cons_append] at h
        injection h with h1 h2
        exact ⟨pre', suf, h2⟩

/-- Counterexample to claim C4: the Title Extractor does not apply the
spec's four-rule chain.  On a fragment with no heading but with a
class-matched element of trimmed length 11 (strictly between 3 and 60),
rule 2 would produce "Chapter One", but the source returns the literal
"Section". -/
theorem C4_counterexample :
    ¬ (extract_title ⟨none, ["Chapter One"], "A long body text."⟩ "OEBPS/ch1.xhtml" =
       extract_title_spec ⟨none, ["Chapter One"], "A long body text."⟩ "OEBPS/ch1.xhtml") := by
  decide

/-- Claim C4 (amended): the Title Extractor applies only rule 1 — the first
heading h1–h3, stripped and truncated to 60 characters — and otherwise
returns the literal `"Section"`; the result never exceeds 60 characters and
depends only on the first heading, ignoring class-matched elements, the
fragment text and the fallback identifier entirely. -/
theorem C4_title_extractor_amended :
    (∀ (soup : Soup) (fn : String), soup.firstHeading = none →
      extract_title soup fn = "Section") ∧
    (∀ (soup : Soup) (fn : String) (h : String), soup.firstHeading = some h →
      extract_title soup fn = strTake (strTrim h) 60) ∧
    (∀ (soup : Soup) (fn : String), (extract_title soup fn).length ≤ 60) ∧
    (∀ (s₁ s₂ : Soup) (f₁ f₂ : String), s₁.firstHeading = s₂.firstHeading →
      extract_title s₁ f₁ = extract_title s₂ f₂) := by
  refine ⟨?_, ?_, ?_, ?_⟩
  · intro soup fn h
    unfold extract_title
    rw [h]
  · intro soup fn h hh
    unfold extract_title
    rw [hh]
  · intro soup fn
    unfold extract_title
    cases hfh : soup.firstHeading with
    | none => decide
    | some h =>
      show (strTake (strTrim h) 60).length ≤ 60
      unfold strTake
      rw [strLength_mk, List.length_take]
      exact inf_le_left
  · intro s₁ s₂ f₁ f₂ h
    unfold extract_title
    rw [h]

/-- Witness for C4 (amended): concrete evaluations of both branches. -/
theorem C4_title_extractor_amended_witness :
    extract_title ⟨none, ["Chapter One"], "body"⟩ "f.xhtml" = "Section" ∧
    extract_title ⟨some "  Prologue  ", [], "x"⟩ "g.xhtml" =
      strTake (strTrim "  Prologue  ") 60 :=
  ⟨C4_title_extractor_amended.1 ⟨none, ["Chapter One"], "body"⟩ "f.xhtml" rfl,
   C4_title_extractor_amended.2.1 ⟨some "  Prologue  ", [], "x"⟩ "g.xhtml" "  Prologue  " rfl⟩

/-- Counterexample to claim C5: the junk pattern is
`(cover|copyright|dedication|ack)` — it does not match "titlepage.xhtml",
so that item is NOT excluded, contrary to the claim. -/
theorem C5_counterexample : junk_pattern_search "titlepage.xhtml" = false := by
  decide

/-- Claim C5 (amended): the Junk Filter returns true exactly when the
lowercased name contains one of the four literal substrings `cover`,
`copyright`, `dedication`, `ack`; in particular "titlepage.xhtml" is NOT
excluded, "chapter05.xhtml" is not excluded, and the match is
case-insensitive ("COVER.xhtml" and "acknowledgments.xhtml" are
excluded). -/
theorem C5_junk_filter_amended :
    (∀ name : String, junk_pattern_search name = true ↔
      ∃ p ∈ junk_words, ∃ pre suf, (strToLower name).data = pre ++ p.data ++ suf) ∧
    junk_pattern_search "titlepage.xhtml" = false ∧
    junk_pattern_search "chapter05.xhtml" = false ∧
    junk_pattern_search "COVER.xhtml" = true ∧
    junk_pattern_search "acknowledgments.xhtml" = true := by
  refine ⟨?_, by decide, by decide, by decide, by decide⟩
  intro name
  unfold junk_pattern_search
  rw [List.any_eq_true]
  constructor
  · rintro ⟨p, hp, hc⟩
    exact ⟨p, hp, (containsSub_iff _ _).mp hc⟩
  · rintro ⟨p, hp, h⟩
    exact ⟨p, hp, (containsSub_iff _ _).mpr h⟩

end EpubAnalyzer
